import Mathlib

/-!
Shallow embedding of the progression-simulation core of the
idle-industry-busy-hands repository, together with proofs about its
specification claims.

Conventions of the embedding:
* Python floats are modelled as exact rationals (`ℚ`); the arithmetic used
  by the core is only `+`, `-`, `*` and comparisons.
* Python dicts (which preserve insertion order and have unique keys) are
  modelled as association lists `List (String × α)`; `alookup`, `aupdate`
  and `aset` mirror `d.get(k)`, in-place mutation of a looked-up value and
  `d[k] = v` respectively.
* Python sets of upgrade ids are modelled as lists with decidable
  membership; the simulation only adds elements and tests membership.
* Methods that mutate `self` become functions returning the new value;
  methods that also return a value return a pair.
* Listener callbacks are modelled by identity: a `TimeSystem` carries a
  list of listener ids, and updates return the log of (listener, year)
  invocations in call order.
-/

namespace IdleGame

/-! ### Association-list primitives (Python dict operations) -/

/-- `d.get(k)`: first value bound to `k`, if any. -/
def alookup {α : Type} : List (String × α) → String → Option α
  | [], _ => none
  | (k', v) :: t, k => if k' = k then some v else alookup t k

/-- Mutating the object returned by `d.get(k)` in place: apply `f` to the
value bound to `k` (no-op when `k` is absent). -/
def aupdate {α : Type} : List (String × α) → String → (α → α) → List (String × α)
  | [], _, _ => []
  | (k', v) :: t, k, f => if k' = k then (k', f v) :: t else (k', v) :: aupdate t k f

/-- `d[k] = v`: replace the binding of `k`, or append a new one. -/
def aset {α : Type} : List (String × α) → String → α → List (String × α)
  | [], k, v => [(k, v)]
  | (k', v') :: t, k, v => if k' = k then (k', v) :: t else (k', v') :: aset t k v

/-! ### Data model (src/resource/definition.py, state.py, effect.py;
src/definitions/resource_cost.py, upgrade.py) -/

/-- `ResourceDefinition` (src/resource/definition.py). Display-only fields
(name, description, icon, color) are omitted: no claim reads them. -/
structure ResourceDefinition where
  id : String
  base_production : ℚ
  min_value : ℚ := 0
  unlock_year : Int := 0
  requires : List String := []
deriving DecidableEq, Repr

/-- `is_dynamic` property: any unlock requirement present. -/
def ResourceDefinition.is_dynamic (d : ResourceDefinition) : Bool :=
  decide (0 < d.unlock_year) || decide (0 < d.requires.length)

/-- `ResourceState` (src/resource/state.py). -/
structure ResourceState where
  definition : ResourceDefinition
  current_value : ℚ := 0
  is_unlocked : Bool := true
  base_additions : ℚ := 0
  total_multiplier : ℚ := 1
deriving DecidableEq, Repr

/-- `ResourceEffect`: target resource id, kind (`"add"` or `"mult"`), value. -/
structure ResourceEffect where
  resource : String
  effect : String
  value : ℚ
deriving DecidableEq, Repr

/-- `ResourceCost`: resource id and amount. -/
structure ResourceCost where
  resource : String
  amount : ℚ
deriving DecidableEq, Repr

/-- `ResourceState.get_production_per_second`. -/
def ResourceState.get_production_per_second (r : ResourceState) : ℚ :=
  (r.definition.base_production + r.base_additions) * r.total_multiplier

/-- `ResourceState.update`: integrate production for `dt`, then clamp to
`min_value` from below. -/
def ResourceState.update (r : ResourceState) (dt : ℚ) : ResourceState :=
  let production := r.get_production_per_second
  let cv := r.current_value + production * dt
  if cv < r.definition.min_value then
    { r with current_value := r.definition.min_value }
  else
    { r with current_value := cv }

/-- `ResourceState.reset_modifiers`. -/
def ResourceState.reset_modifiers (r : ResourceState) : ResourceState :=
  { r with base_additions := 0, total_multiplier := 1 }

/-- `ResourceState.apply_effect`: `"add"` increments `base_additions`,
`"mult"` multiplies `total_multiplier`, anything else is a silent no-op
(the Python `if`/`elif` chain has no `else`). -/
def ResourceState.apply_effect (r : ResourceState) (e : ResourceEffect) : ResourceState :=
  if e.effect = "add" then
    { r with base_additions := r.base_additions + e.value }
  else if e.effect = "mult" then
    { r with total_multiplier := r.total_multiplier * e.value }
  else
    r

/-- An entry of `Upgrade.requires`: Python stores either a plain id string
(direct AND requirement) or a list of ids (OR requirement), discriminated
at runtime with `isinstance(req, list)`. -/
inductive Requirement where
  | direct (id : String)
  | anyOf (ids : List String)
deriving DecidableEq, Repr

/-- `Upgrade` (src/definitions/upgrade.py), display fields omitted.
`exclusive_group` is normalised to a list: Python accepts `None` (here
`[]`), a single string (here a singleton) or a list, and every reader
normalises with `groups = eg if isinstance(eg, list) else [eg]`, while
`if not eg` treats `None` and `[]` the same way as the empty loop. -/
structure Upgrade where
  id : String
  year : Int
  cost : List ResourceCost
  effects : List ResourceEffect
  exclusive_group : List String := []
  requires : List Requirement := []
deriving DecidableEq, Repr

/-! ### ResourceManager (src/resource_manager.py) -/

structure ResourceManager where
  resources : List (String × ResourceState)
deriving DecidableEq, Repr

namespace ResourceManager

/-- `ResourceManager.__init__`: every resource starts at
`base_production * 10`, unlocked iff not dynamic. -/
def init (resource_definitions : List (String × ResourceDefinition)) : ResourceManager :=
  ⟨resource_definitions.map (fun e =>
    (e.1, { definition := e.2
            current_value := e.2.base_production * 10
            is_unlocked := !e.2.is_dynamic }))⟩

/-- `ResourceManager.get`. -/
def get (rm : ResourceManager) (resource_id : String) : Option ResourceState :=
  alookup rm.resources resource_id

/-- `ResourceManager.get_value`: current value, `0.0` when absent. -/
def get_value (rm : ResourceManager) (resource_id : String) : ℚ :=
  match alookup rm.resources resource_id with
  | some res => res.current_value
  | none => 0

/-- `ResourceManager.spend`: succeeds only when the resource exists and
holds at least `amount`; on success subtracts in place. -/
def spend (rm : ResourceManager) (resource_id : String) (amount : ℚ) :
    Bool × ResourceManager :=
  match alookup rm.resources resource_id with
  | some res =>
    if amount ≤ res.current_value then
      (true, ⟨aupdate rm.resources resource_id
        (fun r => { r with current_value := r.current_value - amount })⟩)
    else (false, rm)
  | none => (false, rm)

/-- `ResourceManager.can_afford`: every cost's resource exists and covers
its amount. -/
def can_afford (rm : ResourceManager) (costs : List ResourceCost) : Bool :=
  costs.all (fun cost =>
    match alookup rm.resources cost.resource with
    | some res => decide (cost.amount ≤ res.current_value)
    | none => false)

/-- The spending loop inside `pay_costs`: spends each cost in list order,
ignoring the `spend` result. -/
def payAll (rm : ResourceManager) (costs : List ResourceCost) : ResourceManager :=
  costs.foldl (fun acc cost => (acc.spend cost.resource cost.amount).2) rm

/-- `ResourceManager.pay_costs`: checks `can_afford` first, then spends
each cost in list order. -/
def pay_costs (rm : ResourceManager) (costs : List ResourceCost) :
    Bool × ResourceManager :=
  if rm.can_afford costs then (true, rm.payAll costs) else (false, rm)

/-- `ResourceManager.recalculate_production`: reset all modifiers, then for
each owned upgrade present in the catalog apply each of its effects to the
targeted resource (missing resources are skipped). The Python iteration
over the `owned_upgrades` set is modelled by the order of the list. -/
def recalculate_production (rm : ResourceManager) (owned_upgrades : List String)
    (all_upgrades : List (String × Upgrade)) : ResourceManager :=
  let reset := rm.resources.map (fun e => (e.1, e.2.reset_modifiers))
  ⟨owned_upgrades.foldl (fun acc upgrade_id =>
    match alookup all_upgrades upgrade_id with
    | some upgrade =>
      upgrade.effects.foldl
        (fun acc2 effect => aupdate acc2 effect.resource (fun r => r.apply_effect effect))
        acc
    | none => acc) reset⟩

/-- `ResourceManager.update`: update every resource. -/
def update (rm : ResourceManager) (dt : ℚ) : ResourceManager :=
  ⟨rm.resources.map (fun e => (e.1, e.2.update dt))⟩

/-- `ResourceManager.apply_effect`: route to the targeted resource. -/
def apply_effect (rm : ResourceManager) (effect : ResourceEffect) : ResourceManager :=
  ⟨aupdate rm.resources effect.resource (fun r => r.apply_effect effect)⟩

/-- One pass of the loop body of `check_and_unlock_resources` over a single
resource state, with the comparison exactly as written in the source:
`if definition.unlock_year < current_year: continue`. -/
def unlockStep (current_year : Int) (owned_upgrades : List String)
    (rs : ResourceState) : ResourceState :=
  if rs.is_unlocked then rs
  else if rs.definition.unlock_year < current_year then rs
  else if !rs.definition.requires.all (fun u => decide (u ∈ owned_upgrades)) then rs
  else { rs with is_unlocked := true }

/-- `ResourceManager.check_and_unlock_resources`: runs the unlock pass over
every resource and reports whether any locked resource transitioned. -/
def check_and_unlock_resources (rm : ResourceManager) (current_year : Int)
    (owned_upgrades : List String) : Bool × ResourceManager :=
  (rm.resources.any (fun e =>
      !e.2.is_unlocked && (unlockStep current_year owned_upgrades e.2).is_unlocked),
   ⟨rm.resources.map (fun e => (e.1, unlockStep current_year owned_upgrades e.2))⟩)

end ResourceManager

/-! ### TimeSystem (src/time_system.py) -/

/-- `TimeSystem` state. Configuration values read from the config file in
`__init__` are plain fields here. Listener callbacks are identified by
natural numbers; an update returns the log of `(listener, year)` calls. -/
structure TimeSystem where
  current_year : Int
  year_progress : ℚ := 0
  years_per_real_second : ℚ := 1
  time_multiplier : ℚ := 1
  max_multiplier : ℚ := 16
  min_multiplier : ℚ := 1/4
  paused : Bool := false
  listeners : List Nat := []
deriving DecidableEq, Repr

/-- The `while self.year_progress >= 1.0` loop of `TimeSystem.update`:
subtract `1.0` and increment the year until progress drops below `1.0`.
The fuel argument bounds the iteration count; `yearLoop` supplies
`⌈p⌉.toNat`, which `yearLoopF_eq` proves sufficient. -/
def yearLoopF : Nat → ℚ → Int → ℚ × Int
  | 0, p, y => (p, y)
  | n + 1, p, y => if 1 ≤ p then yearLoopF n (p - 1) (y + 1) else (p, y)

def yearLoop (p : ℚ) (y : Int) : ℚ × Int :=
  yearLoopF (⌈p⌉).toNat p y

namespace TimeSystem

/-- `TimeSystem.update`: no-op while paused; otherwise accumulate
`dt * time_multiplier * years_per_real_second` into `year_progress`, roll
over completed years, and — only after the loop — notify every listener
once with the final `current_year` if it changed. -/
def update (ts : TimeSystem) (dt : ℚ) : TimeSystem × List (Nat × Int) :=
  if ts.paused then (ts, [])
  else
    let effective_speed := ts.time_multiplier * ts.years_per_real_second
    let year_delta := dt * effective_speed
    let old_year := ts.current_year
    let rolled := yearLoop (ts.year_progress + year_delta) ts.current_year
    let ts' := { ts with year_progress := rolled.1, current_year := rolled.2 }
    if ts'.current_year ≠ old_year then
      (ts', ts'.listeners.map (fun l => (l, ts'.current_year)))
    else
      (ts', [])

/-- `TimeSystem.get_effective_time_scale`. -/
def get_effective_time_scale (ts : TimeSystem) : ℚ :=
  if ts.paused then 0 else ts.time_multiplier

/-- `TimeSystem.set_speed`: clamp into `[min_multiplier, max_multiplier]`. -/
def set_speed (ts : TimeSystem) (multiplier : ℚ) : TimeSystem :=
  { ts with time_multiplier := max ts.min_multiplier (min ts.max_multiplier multiplier) }

/-- `TimeSystem.toggle_pause`. -/
def toggle_pause (ts : TimeSystem) : TimeSystem :=
  { ts with paused := !ts.paused }

end TimeSystem

/-! ### GameState (src/state.py) -/

/-- `GameState`. The upgrade-tree table and event manager are omitted:
no function used by the claims reads them. `owned_upgrades` (a Python set)
is a list in insertion order with decidable membership;
`selected_exclusive` is a dict from group name to upgrade id. -/
structure GameState where
  resource_manager : ResourceManager
  all_upgrades : List (String × Upgrade)
  owned_upgrades : List String := []
  selected_exclusive : List (String × String) := []
  time_system : TimeSystem
deriving DecidableEq, Repr

namespace GameState

/-- `GameState.current_year` property. -/
def current_year (gs : GameState) : Int :=
  gs.time_system.current_year

/-- One entry of the `requires` loop in `check_requirements_met`: a list
entry needs at least one of its ids owned, a plain entry needs itself
owned. -/
def reqSatisfied (owned_upgrades : List String) : Requirement → Bool
  | .anyOf ids => ids.any (fun r => decide (r ∈ owned_upgrades))
  | .direct id => decide (id ∈ owned_upgrades)

/-- `GameState.check_requirements_met`: every `requires` entry satisfied
(AND over entries, OR inside a list entry), then the year gate
`upgrade.year > current_year → False`. -/
def check_requirements_met (gs : GameState) (upgrade : Upgrade) : Bool :=
  upgrade.requires.all (reqSatisfied gs.owned_upgrades) &&
    !decide (gs.current_year < upgrade.year)

/-- `GameState.check_exclusive_group_available`: for each group the upgrade
belongs to, a recorded selection different from this upgrade's id blocks
it; no groups (Python `None`/empty) means always available. -/
def check_exclusive_group_available (gs : GameState) (upgrade : Upgrade) : Bool :=
  upgrade.exclusive_group.all (fun group =>
    match alookup gs.selected_exclusive group with
    | some sel => decide (sel = upgrade.id)
    | none => true)

/-- `GameState.is_upgrade_available`: not owned, known id, requirements
met, exclusive group free. -/
def is_upgrade_available (gs : GameState) (upgrade_id : String) : Bool :=
  if upgrade_id ∈ gs.owned_upgrades then false
  else
    match alookup gs.all_upgrades upgrade_id with
    | none => false
    | some upgrade =>
      gs.check_requirements_met upgrade && gs.check_exclusive_group_available upgrade

/-- `GameState.purchase_upgrade`: reject if unavailable or `pay_costs`
fails; otherwise add to `owned_upgrades`, record the exclusive-group
selections, and recalculate production. -/
def purchase_upgrade (gs : GameState) (upgrade_id : String) : Bool × GameState :=
  if !gs.is_upgrade_available upgrade_id then (false, gs)
  else
    match alookup gs.all_upgrades upgrade_id with
    | none => (false, gs)
    | some upgrade =>
      let paid := gs.resource_manager.pay_costs upgrade.cost
      if !paid.1 then (false, { gs with resource_manager := paid.2 })
      else
        let owned := gs.owned_upgrades ++ [upgrade_id]
        let sel := upgrade.exclusive_group.foldl
          (fun m group => aset m group upgrade_id) gs.selected_exclusive
        (true, { gs with
          resource_manager := paid.2.recalculate_production owned gs.all_upgrades
          owned_upgrades := owned
          selected_exclusive := sel })

/-- `GameState.update`: scale `dt` and update the resources. -/
def update (gs : GameState) (dt : ℚ) (time_scale : ℚ) : GameState :=
  { gs with resource_manager := gs.resource_manager.update (dt * time_scale) }

/-- `GameState.can_time_skip_to_year`: only forward, and no resource's
projection `current + rate * years * 2` may fall below its floor. -/
def can_time_skip_to_year (gs : GameState) (target_year : Int) : Bool :=
  if target_year ≤ gs.current_year then false
  else
    let years_to_skip := target_year - gs.current_year
    gs.resource_manager.resources.all (fun e =>
      let projected := e.2.current_value +
        e.2.get_production_per_second * (years_to_skip : ℚ) * 2
      !decide (projected < e.2.definition.min_value))

/-- Python `range(a, b + 1)` over integers: the years `a, a+1, …, b`. -/
def intRange (a b : Int) : List Int :=
  (List.range (b + 1 - a).toNat).map (fun i => a + (i : Int))

/-- `GameState.time_skip_to_year`: on success advance every resource by
`rate * years * 2` (clamped to the floor), set the year and zero the
progress, then run the callback loop `for year in range(self.current_year
+ 1, target_year + 1)` — which reads `current_year` *after* it was set to
`target_year`, so the range is empty. Returns (success, state, log of
(listener, year) calls). -/
def time_skip_to_year (gs : GameState) (target_year : Int) :
    Bool × GameState × List (Nat × Int) :=
  if !gs.can_time_skip_to_year target_year then (false, gs, [])
  else
    let years_to_skip := target_year - gs.current_year
    let rm' : ResourceManager := ⟨gs.resource_manager.resources.map (fun e =>
      let cv := e.2.current_value + e.2.get_production_per_second * (years_to_skip : ℚ) * 2
      (e.1, { e.2 with current_value :=
        if cv < e.2.definition.min_value then e.2.definition.min_value else cv }))⟩
    let ts' := { gs.time_system with current_year := target_year, year_progress := 0 }
    let gs' := { gs with resource_manager := rm', time_system := ts' }
    let fired := (intRange (gs'.current_year + 1) target_year).flatMap
      (fun year => ts'.listeners.map (fun l => (l, year)))
    (true, gs', fired)

end GameState

/-! ### Operation sequences over the embedded state -/

/-- A call in a `ResourceManager` call sequence: `update`, `spend` or
`apply_effect`. -/
inductive ROp where
  | update (dt : ℚ)
  | spend (resource_id : String) (amount : ℚ)
  | applyEffect (effect : ResourceEffect)
deriving DecidableEq, Repr

/-- Apply one `ResourceManager` call (the `spend` result flag is dropped,
only the state matters for the invariant). -/
def stepR (rm : ResourceManager) : ROp → ResourceManager
  | .update dt => rm.update dt
  | .spend id amount => (rm.spend id amount).2
  | .applyEffect effect => rm.apply_effect effect

/-- Run a sequence of `ResourceManager` calls. -/
def runR (rm : ResourceManager) (ops : List ROp) : ResourceManager :=
  ops.foldl stepR rm

/-- A session command on `GameState`: the player-facing mutating calls of
normal play. -/
inductive GOp where
  | purchase (upgrade_id : String)
  | gupdate (dt time_scale : ℚ)
  | tick (dt : ℚ)
  | skip (target_year : Int)
  | unlockCheck
deriving DecidableEq, Repr

/-- Apply one session command. -/
def stepG (gs : GameState) : GOp → GameState
  | .purchase id => (gs.purchase_upgrade id).2
  | .gupdate dt s => gs.update dt s
  | .tick dt => { gs with time_system := (gs.time_system.update dt).1 }
  | .skip target => (gs.time_skip_to_year target).2.1
  | .unlockCheck => { gs with resource_manager :=
      (gs.resource_manager.check_and_unlock_resources gs.current_year gs.owned_upgrades).2 }

/-- Run a sequence of session commands. -/
def runG (gs : GameState) (ops : List GOp) : GameState :=
  ops.foldl stepG gs

/-! ### Invariants -/

/-- Every resource has a non-positive floor and sits at or above it. -/
def FloorSafe (rm : ResourceManager) : Prop :=
  ∀ e ∈ rm.resources,
    e.2.definition.min_value ≤ 0 ∧ e.2.definition.min_value ≤ e.2.current_value

/-- The upgrade catalog binds each key to an upgrade carrying that same id
(the loader constructs `all_upgrades` keyed by `upgrade.id`). -/
def WFCatalog (cat : List (String × Upgrade)) : Prop :=
  ∀ e ∈ cat, e.2.id = e.1

/-- Session invariant behind exclusive-group permanence: the catalog is
fixed, `winner` is owned, and group `g` records `winner` as its choice. -/
def GroupLocked (cat : List (String × Upgrade)) (winner g : String)
    (gs : GameState) : Prop :=
  gs.all_upgrades = cat ∧ winner ∈ gs.owned_upgrades ∧
    alookup gs.selected_exclusive g = some winner

/-! ### Concrete fixtures used by counterexamples and witnesses -/

def moneyDefEx : ResourceDefinition :=
  { id := "money", base_production := 10, min_value := 0 }

def rmEx : ResourceManager := ResourceManager.init [("money", moneyDefEx)]

/-- A resource whose floor (50) lies below its starting value (100) but
above zero. -/
def floorDefC1 : ResourceDefinition :=
  { id := "money", base_production := 10, min_value := 50 }

def rmC1 : ResourceManager := ResourceManager.init [("money", floorDefC1)]

/-- A running time system at year 0 with one registered listener. -/
def tsC2 : TimeSystem := { current_year := 0, listeners := [0] }

/-- A cost list naming the same resource twice; each entry alone is
affordable from 100, their sum is not. -/
def costsC3 : List ResourceCost := [⟨"money", 60⟩, ⟨"money", 60⟩]

/-- Upgrade fixtures: `"A"` and `"B"` compete in exclusive group `"g"`;
`"C"` is free of any group; `"D"` has the OR requirement `[["a","b"]]`. -/
def upgA : Upgrade :=
  { id := "A", year := 0, cost := [⟨"money", 50⟩], effects := []
    exclusive_group := ["g"] }

def upgB : Upgrade :=
  { id := "B", year := 0, cost := [⟨"money", 50⟩], effects := []
    exclusive_group := ["g"] }

def upgC : Upgrade :=
  { id := "C", year := 0, cost := [], effects := [⟨"money", "add", 5⟩] }

def upgD : Upgrade :=
  { id := "D", year := 0, cost := [], effects := []
    requires := [Requirement.anyOf ["a", "b"]] }

def catEx : List (String × Upgrade) :=
  [("A", upgA), ("B", upgB), ("C", upgC), ("D", upgD)]

def gsEx : GameState :=
  { resource_manager := rmEx
    all_upgrades := catEx
    time_system := { current_year := 0, listeners := [] } }

/-- Game state owning exactly `"a"`, for the OR-requirement claim. -/
def gsC9 : GameState :=
  { resource_manager := rmEx
    all_upgrades := catEx
    owned_upgrades := ["a"]
    time_system := { current_year := 0, listeners := [] } }

/-- A non-dynamic resource whose floor (20) exceeds ten times its base
production (10). -/
def rareDefC10 : ResourceDefinition :=
  { id := "rare", base_production := 1, min_value := 20 }

/-- A dynamic resource gated on year 5 with no upgrade requirements,
still locked. -/
def ironDefC6 : ResourceDefinition :=
  { id := "iron", base_production := 1, unlock_year := 5 }

def rmC6 : ResourceManager := ResourceManager.init [("iron", ironDefC6)]

/-- Game state for the time-skip claim: positive production, one
registered year listener, year 0. -/
def gsC7 : GameState :=
  { resource_manager := rmEx
    all_upgrades := catEx
    time_system := { current_year := 0, listeners := [0] } }

end IdleGame

namespace IdleGame

/-! ### Association-list lemmas -/

theorem alookup_aupdate_self {α : Type} (l : List (String × α)) (k : String) (f : α → α) :
    alookup (aupdate l k f) k = (alookup l k).map f := by
  induction l with
  | nil => simp [alookup, aupdate]
  | cons e t ih =>
    obtain ⟨k', v⟩ := e
    by_cases h : k' = k
    · simp [alookup, aupdate, h]
    · simp [alookup, aupdate, h, ih]

theorem alookup_aupdate_ne {α : Type} (l : List (String × α)) (k k' : String)
    (f : α → α) (h : k' ≠ k) :
    alookup (aupdate l k f) k' = alookup l k' := by
  induction l with
  | nil => simp [alookup, aupdate]
  | cons e t ih =>
    obtain ⟨k₀, v⟩ := e
    by_cases h0 : k₀ = k
    · subst h0
      simp [alookup, aupdate, Ne.symm h]
    · by_cases h1 : k₀ = k'
      · simp [alookup, aupdate, h0, h1, h]
      · simp [alookup, aupdate, h0, h1, ih]

theorem mem_aupdate {α : Type} (l : List (String × α)) (k : String) (f : α → α)
    (e : String × α) :
    e ∈ aupdate l k f → e ∈ l ∨ ∃ r, alookup l k = some r ∧ e = (k, f r) := by
  induction l with
  | nil => intro h; simp [aupdate] at h
  | cons e0 t ih =>
    intro h
    obtain ⟨k', v⟩ := e0
    by_cases h0 : k' = k
    · subst h0
      simp only [aupdate, if_pos rfl] at h
      rcases List.mem_cons.mp h with h | h
      · exact Or.inr ⟨v, by simp [alookup], h⟩
      · exact Or.inl (List.mem_cons_of_mem _ h)
    · simp only [aupdate, if_neg h0] at h
      rcases List.mem_cons.mp h with h | h
      · exact Or.inl (by simp [h])
      · rcases ih h with h1 | ⟨r, hr, he⟩
        · exact Or.inl (List.mem_cons_of_mem _ h1)
        · exact Or.inr ⟨r, by simp [alookup, h0, hr], he⟩

theorem alookup_mem {α : Type} (l : List (String × α)) (k : String) (v : α) :
    alookup l k = some v → (k, v) ∈ l := by
  induction l with
  | nil => intro h; simp [alookup] at h
  | cons e t ih =>
    intro h
    obtain ⟨k', v'⟩ := e
    by_cases h0 : k' = k
    · subst h0
      simp [alookup] at h
      simp [h]
    · simp only [alookup, if_neg h0] at h
      exact List.mem_cons_of_mem _ (ih h)

theorem alookup_aset_self {α : Type} (l : List (String × α)) (k : String) (v : α) :
    alookup (aset l k v) k = some v := by
  induction l with
  | nil => simp [alookup, aset]
  | cons e t ih =>
    obtain ⟨k', v'⟩ := e
    by_cases h : k' = k
    · simp [alookup, aset, h]
    · simp [alookup, aset, h, ih]

theorem alookup_aset_ne {α : Type} (l : List (String × α)) (k k' : String) (v : α)
    (h : k' ≠ k) : alookup (aset l k v) k' = alookup l k' := by
  induction l with
  | nil => simp [alookup, aset, Ne.symm h]
  | cons e t ih =>
    obtain ⟨k₀, v₀⟩ := e
    by_cases h0 : k₀ = k
    · subst h0
      simp [alookup, aset, Ne.symm h]
    · by_cases h1 : k₀ = k'
      · simp [alookup, aset, h0, h1, h]
      · simp [alookup, aset, h0, h1, ih]

theorem alookup_foldl_aset_notmem {α : Type} (groups : List String)
    (m0 : List (String × α)) (k : String) (v : α) (h : k ∉ groups) :
    alookup (groups.foldl (fun m g => aset m g v) m0) k = alookup m0 k := by
  induction groups generalizing m0 with
  | nil => simp
  | cons g t ih =>
    simp only [List.foldl_cons]
    have hk : k ∉ t := fun hm => h (List.mem_cons_of_mem _ hm)
    have hg : k ≠ g := fun he => h (by simp [he])
    rw [ih _ hk, alookup_aset_ne _ _ _ _ hg]

theorem alookup_foldl_aset_mem {α : Type} (groups : List String)
    (m0 : List (String × α)) (k : String) (v : α) (h : k ∈ groups) :
    alookup (groups.foldl (fun m g => aset m g v) m0) k = some v := by
  induction groups generalizing m0 with
  | nil => simp at h
  | cons g t ih =>
    simp only [List.foldl_cons]
    by_cases ht : k ∈ t
    · exact ih _ ht
    · have hg : k = g := by
        rcases List.mem_cons.mp h with h1 | h1
        · exact h1
        · exact absurd h1 ht
      subst hg
      rw [alookup_foldl_aset_notmem _ _ _ _ ht, alookup_aset_self]

theorem alookup_map_second {α β : Type} (l : List (String × α)) (g : α → β) (k : String) :
    alookup (l.map (fun e => (e.1, g e.2))) k = (alookup l k).map g := by
  induction l with
  | nil => simp [alookup]
  | cons e t ih =>
    obtain ⟨k', v⟩ := e
    by_cases h : k' = k
    · simp [alookup, h]
    · simp [alookup, h, ih]

theorem map_second_aupdate_cancel {α β : Type} (l : List (String × α)) (k : String)
    (f : α → α) (g : α → β) (hfg : ∀ a, g (f a) = g a) :
    (aupdate l k f).map (fun e => (e.1, g e.2)) = l.map (fun e => (e.1, g e.2)) := by
  induction l with
  | nil => simp [aupdate]
  | cons e t ih =>
    obtain ⟨k', v⟩ := e
    by_cases h : k' = k
    · simp [aupdate, h, hfg]
    · simp [aupdate, h, ih]

/-! ### ResourceState facts -/

theorem ResourceState.update_definition (r : ResourceState) (dt : ℚ) :
    (r.update dt).definition = r.definition := by
  unfold ResourceState.update
  dsimp only
  split <;> rfl

theorem ResourceState.min_le_update (r : ResourceState) (dt : ℚ) :
    r.definition.min_value ≤ (r.update dt).current_value := by
  unfold ResourceState.update
  dsimp only
  split
  · exact le_refl _
  · next h => exact le_of_not_lt h

theorem ResourceState.apply_effect_current_value (r : ResourceState) (e : ResourceEffect) :
    (r.apply_effect e).current_value = r.current_value := by
  unfold ResourceState.apply_effect
  split_ifs <;> rfl

theorem ResourceState.apply_effect_definition (r : ResourceState) (e : ResourceEffect) :
    (r.apply_effect e).definition = r.definition := by
  unfold ResourceState.apply_effect
  split_ifs <;> rfl

theorem ResourceState.reset_apply_effect (r : ResourceState) (e : ResourceEffect) :
    (r.apply_effect e).reset_modifiers = r.reset_modifiers := by
  unfold ResourceState.apply_effect ResourceState.reset_modifiers
  split_ifs <;> rfl

/-! ### The floor invariant (claim C1) -/

theorem floorSafe_stepR (rm : ResourceManager) (op : ROp) (h : FloorSafe rm) :
    FloorSafe (stepR rm op) := by
  cases op with
  | update dt =>
    intro e he
    simp only [stepR, ResourceManager.update] at he
    obtain ⟨e0, he0, rfl⟩ := List.mem_map.mp he
    refine ⟨?_, ?_⟩
    · rw [ResourceState.update_definition]
      exact (h e0 he0).1
    · rw [ResourceState.update_definition]
      exact ResourceState.min_le_update _ _
  | spend id amount =>
    intro e he
    simp only [stepR, ResourceManager.spend] at he
    cases hl : alookup rm.resources id with
    | none => rw [hl] at he; exact h e he
    | some res =>
      rw [hl] at he
      dsimp only at he
      by_cases hc : amount ≤ res.current_value
      · rw [if_pos hc] at he
        dsimp only at he
        rcases mem_aupdate _ _ _ _ he with hm | ⟨r, hr, rfl⟩
        · exact h e hm
        · rw [hl] at hr
          obtain rfl : res = r := by injection hr
          have hres := h (id, res) (alookup_mem _ _ _ hl)
          refine ⟨hres.1, ?_⟩
          have h0 : (0 : ℚ) ≤ res.current_value - amount := by linarith
          calc res.definition.min_value ≤ 0 := hres.1
            _ ≤ res.current_value - amount := h0
      · rw [if_neg hc] at he
        exact h e he
  | applyEffect effect =>
    intro e he
    simp only [stepR, ResourceManager.apply_effect] at he
    rcases mem_aupdate _ _ _ _ he with hm | ⟨r, hr, rfl⟩
    · exact h e hm
    · have hres := h (effect.resource, r) (alookup_mem _ _ _ hr)
      rw [ResourceState.apply_effect_definition, ResourceState.apply_effect_current_value]
      exact hres

theorem floorSafe_runR (rm : ResourceManager) (ops : List ROp) (h : FloorSafe rm) :
    FloorSafe (runR rm ops) := by
  induction ops generalizing rm with
  | nil => exact h
  | cons op t ih => exact ih _ (floorSafe_stepR _ _ h)

example : rmEx.get_value "money" = 100 := by
  norm_num [rmEx, moneyDefEx, ResourceManager.init, ResourceManager.get_value, alookup]
example : (rmEx.spend "money" 150).1 = false := by
  norm_num [rmEx, moneyDefEx, ResourceManager.init, ResourceManager.spend, alookup]
example : ((rmEx.spend "money" 60).2).get_value "money" = 40 := by
  norm_num [rmEx, moneyDefEx, ResourceManager.init, ResourceManager.spend,
    ResourceManager.get_value, alookup, aupdate]
example : ((rmEx.spend "money" 60).2.update 1).get_value "money" = 50 := by
  norm_num [rmEx, moneyDefEx, ResourceManager.init, ResourceManager.spend,
    ResourceManager.get_value, ResourceManager.update, ResourceState.update,
    ResourceState.get_production_per_second, alookup, aupdate]
example : yearLoop (7/2) 0 = (1/2, 3) := by
  have hc : ⌈(7:ℚ)/2⌉ = 4 := by norm_num [Int.ceil_eq_iff]
  norm_num [yearLoop, yearLoopF, hc]
example : (TimeSystem.update { current_year := 0, listeners := [0] } 3).2 = [(0, 3)] := by
  norm_num [TimeSystem.update, yearLoop, yearLoopF]

/-! ### The year rollover loop -/

theorem yearLoopF_eq (fuel : ℕ) (p : ℚ) (y : ℤ) (hp : 0 ≤ p)
    (hf : (⌊p⌋).toNat ≤ fuel) :
    yearLoopF fuel p y = (p - (⌊p⌋ : ℚ), y + ⌊p⌋) := by
  induction fuel generalizing p y with
  | zero =>
    have h0 : ⌊p⌋ = 0 := by
      have hnn : 0 ≤ ⌊p⌋ := Int.floor_nonneg.mpr hp
      omega
    simp [yearLoopF, h0]
  | succ n ih =>
    by_cases h1 : 1 ≤ p
    · have hfl : 1 ≤ ⌊p⌋ := Int.le_floor.mpr (by exact_mod_cast h1)
      have hsub : ⌊p - 1⌋ = ⌊p⌋ - 1 := by
        exact_mod_cast Int.floor_sub_int p 1
      rw [yearLoopF, if_pos h1,
        ih (p - 1) (y + 1) (by linarith) (by rw [hsub]; omega)]
      rw [hsub, Prod.mk.injEq]
      exact ⟨by push_cast; ring, by ring⟩
    · have h0 : ⌊p⌋ = 0 := by
        rw [Int.floor_eq_zero_iff]
        exact ⟨hp, lt_of_not_le h1⟩
      rw [yearLoopF, if_neg h1]
      simp [h0]

theorem yearLoop_eq (p : ℚ) (y : ℤ) (hp : 0 ≤ p) :
    yearLoop p y = (p - (⌊p⌋ : ℚ), y + ⌊p⌋) := by
  have hfc : ⌊p⌋ ≤ ⌈p⌉ := Int.floor_le_ceil p
  exact yearLoopF_eq _ p y hp (by omega)

/-! ### Claim C2 -/

/-- C2, counterexample: a running `TimeSystem` at year 0 with one listener,
advanced by `dt = 3` (crossing 3 year boundaries in one `update`), fires
the listener exactly **once**, with the final year 3 — not three times with
years 1, 2, 3 as claimed: the source notifies after the rollover loop, only
when the year changed, always with the final `current_year`. -/
theorem year_listeners_fire_once_not_per_year_cex :
    (tsC2.update 3).2 = [(0, 3)] ∧
    (tsC2.update 3).2 ≠ [(0, 1), (0, 2), (0, 3)] ∧
    (tsC2.update 3).1.current_year = 3 := by
  norm_num [tsC2, TimeSystem.update, yearLoop, yearLoopF]

/-- C2, amended: while running, a single `update(dt)` whose accumulated
progress `p = year_progress + dt * time_multiplier * years_per_real_second`
crosses `k = ⌊p⌋ ≥ 1` year boundaries advances `current_year` by `k` but
fires every registered listener exactly **once**, in registration order,
each receiving the final year `N + k` (no intermediate year values are
delivered). -/
theorem time_update_fires_listeners_once_with_final_year
    (ts : TimeSystem) (dt : ℚ) (hrun : ts.paused = false)
    (hcross : 1 ≤ ts.year_progress + dt * (ts.time_multiplier * ts.years_per_real_second)) :
    (ts.update dt).2 =
      ts.listeners.map (fun l =>
        (l, ts.current_year +
          ⌊ts.year_progress + dt * (ts.time_multiplier * ts.years_per_real_second)⌋)) ∧
    (ts.update dt).1.current_year =
      ts.current_year +
        ⌊ts.year_progress + dt * (ts.time_multiplier * ts.years_per_real_second)⌋ := by
  set p := ts.year_progress + dt * (ts.time_multiplier * ts.years_per_real_second) with hpdef
  have hp : 0 ≤ p := le_trans zero_le_one hcross
  have hfl : 1 ≤ ⌊p⌋ := Int.le_floor.mpr (by exact_mod_cast hcross)
  unfold TimeSystem.update
  rw [if_neg (by simp [hrun])]
  dsimp only
  rw [← hpdef, yearLoop_eq p ts.current_year hp]
  dsimp only
  rw [if_pos (by omega)]
  exact ⟨rfl, rfl⟩

/-- Witness for `time_update_fires_listeners_once_with_final_year` at
`tsC2` with `dt = 3`. -/
theorem time_update_fires_once_witness :
    tsC2.paused = false ∧
    1 ≤ tsC2.year_progress + 3 * (tsC2.time_multiplier * tsC2.years_per_real_second) ∧
    (tsC2.update 3).2 =
      tsC2.listeners.map (fun l =>
        (l, tsC2.current_year +
          ⌊tsC2.year_progress + 3 * (tsC2.time_multiplier * tsC2.years_per_real_second)⌋)) := by
  have h1 : tsC2.paused = false := by norm_num [tsC2]
  have h2 : 1 ≤ tsC2.year_progress + 3 * (tsC2.time_multiplier * tsC2.years_per_real_second) := by
    norm_num [tsC2]
  exact ⟨h1, h2, (time_update_fires_listeners_once_with_final_year tsC2 3 h1 h2).1⟩

/-! ### spend / can_afford / pay_costs lemmas -/

theorem alookup_spend_ne (rm : ResourceManager) (k k' : String) (a : ℚ) (h : k' ≠ k) :
    alookup (rm.spend k a).2.resources k' = alookup rm.resources k' := by
  unfold ResourceManager.spend
  cases hl : alookup rm.resources k with
  | none => rfl
  | some res =>
    dsimp only
    by_cases hc : a ≤ res.current_value
    · rw [if_pos hc]
      exact alookup_aupdate_ne _ _ _ _ h
    · rw [if_neg hc]

theorem get_value_spend_ne (rm : ResourceManager) (k k' : String) (a : ℚ) (h : k' ≠ k) :
    (rm.spend k a).2.get_value k' = rm.get_value k' := by
  unfold ResourceManager.get_value
  rw [alookup_spend_ne rm k k' a h]

theorem spend_success_value (rm : ResourceManager) (k : String) (a : ℚ)
    (r : ResourceState) (hl : alookup rm.resources k = some r)
    (hc : a ≤ r.current_value) :
    (rm.spend k a).1 = true ∧ (rm.spend k a).2.get_value k = r.current_value - a := by
  unfold ResourceManager.spend
  rw [hl]
  dsimp only
  rw [if_pos hc]
  refine ⟨rfl, ?_⟩
  unfold ResourceManager.get_value
  dsimp only
  rw [alookup_aupdate_self, hl]
  rfl

theorem can_afford_cons (rm : ResourceManager) (c : ResourceCost)
    (rest : List ResourceCost) (h : rm.can_afford (c :: rest) = true) :
    (∃ r, alookup rm.resources c.resource = some r ∧ c.amount ≤ r.current_value) ∧
      rm.can_afford rest = true := by
  unfold ResourceManager.can_afford at h ⊢
  rw [List.all_cons, Bool.and_eq_true] at h
  refine ⟨?_, h.2⟩
  rcases h with ⟨hc, -⟩
  cases hl : alookup rm.resources c.resource with
  | none => rw [hl] at hc; simp at hc
  | some r =>
    rw [hl] at hc
    simp only [decide_eq_true_eq] at hc
    exact ⟨r, rfl, hc⟩

theorem payAll_spec (costs : List ResourceCost) (rm : ResourceManager)
    (hnd : (costs.map ResourceCost.resource).Nodup)
    (ha : rm.can_afford costs = true) :
    (∀ c ∈ costs,
      (rm.payAll costs).get_value c.resource = rm.get_value c.resource - c.amount) ∧
    (∀ k, k ∉ costs.map ResourceCost.resource →
      alookup (rm.payAll costs).resources k = alookup rm.resources k) := by
  induction costs generalizing rm with
  | nil => simp [ResourceManager.payAll]
  | cons c rest ih =>
    obtain ⟨⟨r, hl, hc⟩, harest⟩ := can_afford_cons rm c rest ha
    rw [List.map_cons, List.nodup_cons] at hnd
    obtain ⟨hcr, hndr⟩ := hnd
    have hfold : rm.payAll (c :: rest) = (rm.spend c.resource c.amount).2.payAll rest := by
      unfold ResourceManager.payAll
      rw [List.foldl_cons]
    have harest1 : (rm.spend c.resource c.amount).2.can_afford rest = true := by
      unfold ResourceManager.can_afford at harest ⊢
      rw [List.all_eq_true] at harest ⊢
      intro c' hc'
      have hne : c'.resource ≠ c.resource := by
        intro he
        exact hcr (he ▸ List.mem_map_of_mem ResourceCost.resource hc')
      rw [alookup_spend_ne rm _ _ _ hne]
      exact harest c' hc'
    obtain ⟨ihv, ihk⟩ := ih (rm.spend c.resource c.amount).2 hndr harest1
    constructor
    · intro c' hc'
      rcases List.mem_cons.mp hc' with rfl | hmem
      · have hs := (spend_success_value rm c'.resource c'.amount r hl hc).2
        have hv : rm.get_value c'.resource = r.current_value := by
          unfold ResourceManager.get_value
          rw [hl]
        rw [hfold, hv]
        unfold ResourceManager.get_value at hs ⊢
        rw [ihk c'.resource hcr]
        rw [← hs]
      · have hne : c'.resource ≠ c.resource := by
          intro he
          exact hcr (he ▸ List.mem_map_of_mem ResourceCost.resource hmem)
        rw [hfold, ihv c' hmem, get_value_spend_ne rm _ _ _ hne]
    · intro k hk
      rw [List.map_cons, List.mem_cons] at hk
      push_neg at hk
      rw [hfold, ihk k hk.2, alookup_spend_ne rm _ _ _ hk.1]

/-! ### Claim C3 -/

/-- C3, counterexample: the cost list `[("money",60), ("money",60)]` names
the same resource twice; from `money = 100`, `can_afford` approves each
entry against the same snapshot, `pay_costs` returns `true`, the first
`spend` succeeds, the second silently fails, and the final value `40` is
neither the untouched `100` nor the fully deducted `100 - 60 - 60`: a
partial deduction occurred. -/
theorem pay_costs_partially_deducts_on_duplicates_cex :
    (rmEx.pay_costs costsC3).1 = true ∧
    (rmEx.pay_costs costsC3).2.get_value "money" = 40 ∧
    rmEx.get_value "money" = 100 ∧
    (40 : ℚ) ≠ 100 - 60 - 60 ∧ (40 : ℚ) ≠ 100 := by
  refine ⟨?_, ?_, ?_, by norm_num, by norm_num⟩ <;>
    norm_num [rmEx, moneyDefEx, costsC3, ResourceManager.init, ResourceManager.pay_costs,
      ResourceManager.can_afford, ResourceManager.payAll, ResourceManager.spend,
      ResourceManager.get_value, alookup, aupdate]

/-- C3, amended: for a cost list whose resource ids are pairwise distinct,
`pay_costs` is all-or-nothing: when `can_afford` is false it returns
`false` and mutates nothing; when `can_afford` is true it returns `true`,
deducts exactly its amount from every listed resource, and leaves every
other resource untouched. (With a resource repeated in the list, a partial
deduction is possible.) -/
theorem pay_costs_all_or_nothing (rm : ResourceManager) (costs : List ResourceCost)
    (hnd : (costs.map ResourceCost.resource).Nodup) :
    (rm.can_afford costs = false → rm.pay_costs costs = (false, rm)) ∧
    (rm.can_afford costs = true →
      (rm.pay_costs costs).1 = true ∧
      (∀ c ∈ costs,
        (rm.pay_costs costs).2.get_value c.resource = rm.get_value c.resource - c.amount) ∧
      (∀ k, k ∉ costs.map ResourceCost.resource →
        (rm.pay_costs costs).2.get_value k = rm.get_value k)) := by
  constructor
  · intro hfalse
    unfold ResourceManager.pay_costs
    rw [hfalse]
    rfl
  · intro htrue
    obtain ⟨hv, hk⟩ := payAll_spec costs rm hnd htrue
    have hpc : rm.pay_costs costs = (true, rm.payAll costs) := by
      unfold ResourceManager.pay_costs
      rw [htrue]
      rfl
    rw [hpc]
    refine ⟨rfl, hv, ?_⟩
    intro k hkm
    unfold ResourceManager.get_value
    rw [hk k hkm]

/-- Witness for `pay_costs_all_or_nothing`: a two-entry distinct-resource
cost list paid from the standard fixture. -/
theorem pay_costs_all_or_nothing_witness :
    ([⟨"money", 60⟩, ⟨"gold", 1⟩].map ResourceCost.resource).Nodup ∧
    (ResourceManager.init [("money", moneyDefEx), ("gold", moneyDefEx)]).can_afford
      [⟨"money", 60⟩, ⟨"gold", 1⟩] = true ∧
    ((ResourceManager.init [("money", moneyDefEx), ("gold", moneyDefEx)]).pay_costs
      [⟨"money", 60⟩, ⟨"gold", 1⟩]).1 = true := by
  have hnd : ([⟨"money", 60⟩, ⟨"gold", 1⟩].map ResourceCost.resource).Nodup := by
    decide
  have ha : (ResourceManager.init [("money", moneyDefEx), ("gold", moneyDefEx)]).can_afford
      [⟨"money", 60⟩, ⟨"gold", 1⟩] = true := by
    norm_num [moneyDefEx, ResourceManager.init, ResourceManager.can_afford, alookup]
  exact ⟨hnd, ha,
    ((pay_costs_all_or_nothing _ _ hnd).2 ha).1⟩

/-! ### Claim C8: recalculation lemmas -/

theorem map_reset_foldl_effects (effects : List ResourceEffect)
    (l : List (String × ResourceState)) :
    ((effects.foldl
        (fun acc eff => aupdate acc eff.resource (fun r => r.apply_effect eff)) l).map
      (fun e => (e.1, e.2.reset_modifiers))) =
    l.map (fun e => (e.1, e.2.reset_modifiers)) := by
  induction effects generalizing l with
  | nil => rfl
  | cons eff t ih =>
    rw [List.foldl_cons, ih,
      map_second_aupdate_cancel _ _ _ _ (fun a => ResourceState.reset_apply_effect a eff)]

theorem map_reset_foldl_owned (owned : List String) (cat : List (String × Upgrade))
    (l : List (String × ResourceState)) :
    ((owned.foldl (fun acc upgrade_id =>
        match alookup cat upgrade_id with
        | some upgrade =>
          upgrade.effects.foldl
            (fun acc2 effect => aupdate acc2 effect.resource (fun r => r.apply_effect effect))
            acc
        | none => acc) l).map (fun e => (e.1, e.2.reset_modifiers))) =
    l.map (fun e => (e.1, e.2.reset_modifiers)) := by
  induction owned generalizing l with
  | nil => rfl
  | cons uid t ih =>
    rw [List.foldl_cons]
    cases alookup cat uid with
    | none => exact ih l
    | some u => rw [ih, map_reset_foldl_effects]

theorem map_reset_idem (l : List (String × ResourceState)) :
    ((l.map (fun e => (e.1, e.2.reset_modifiers))).map
        (fun e => (e.1, e.2.reset_modifiers))) =
    l.map (fun e => (e.1, e.2.reset_modifiers)) := by
  induction l with
  | nil => rfl
  | cons e t ih =>
    simp only [List.map_cons, ih]
    rfl

/-- C8: `recalculate_production` is idempotent — running it a second time
with the same owned-upgrade set and catalog reproduces exactly the same
`ResourceManager` (in particular the same `base_additions` and
`total_multiplier` on every resource): the first step resets every
modifier, and effect application never touches any field that survives the
reset, so no drift can accumulate. -/
theorem recalculate_production_idempotent (rm : ResourceManager)
    (owned_upgrades : List String) (all_upgrades : List (String × Upgrade)) :
    (rm.recalculate_production owned_upgrades all_upgrades).recalculate_production
        owned_upgrades all_upgrades =
      rm.recalculate_production owned_upgrades all_upgrades := by
  unfold ResourceManager.recalculate_production
  dsimp only
  congr 1
  rw [map_reset_foldl_owned, map_reset_idem]

/-! ### Claim C1 -/

/-- C1, counterexample: for the resource `"money"` with
`min_value = 50` and initial value `100`, the one-call sequence
`[spend "money" 60]` succeeds and leaves `current_value = 40 < 50`, so
`current_value >= definition.min_value` does **not** hold after every
`update`/`spend`/`apply_effect` call: `spend` checks only
`current_value >= amount` and never consults the floor. -/
theorem spend_can_drop_below_positive_floor_cex :
    (rmC1.spend "money" 60).1 = true ∧
    (runR rmC1 [ROp.spend "money" 60]).get_value "money" = 40 ∧
    (40 : ℚ) < floorDefC1.min_value := by
  refine ⟨?_, ?_, by norm_num [floorDefC1]⟩
  · norm_num [rmC1, floorDefC1, ResourceManager.init, ResourceManager.spend, alookup]
  · norm_num [rmC1, floorDefC1, ResourceManager.init, ResourceManager.spend,
      ResourceManager.get_value, runR, stepR, alookup, aupdate]

/-- C1, amended: provided every resource's `min_value` is at most `0` (the
default, and the only configuration in the repository's tests) and every
resource starts at or above its floor, then after every finite sequence of
`update`/`spend`/`apply_effect` calls each resource's `current_value` is
still `>= definition.min_value`. (With a positive floor the invariant
fails: `spend` only requires `current_value >= amount`.) -/
theorem resource_floor_invariant (rm : ResourceManager) (ops : List ROp)
    (h : FloorSafe rm) :
    ∀ e ∈ (runR rm ops).resources, e.2.definition.min_value ≤ e.2.current_value :=
  fun e he => (floorSafe_runR rm ops h e he).2

/-- Witness for `resource_floor_invariant` at the spec's own scenario:
floor `0`, start `100`, spend 60 then integrate one second. -/
theorem resource_floor_invariant_witness :
    FloorSafe rmEx ∧
    ∀ e ∈ (runR rmEx [ROp.spend "money" 60, ROp.update 1]).resources,
      e.2.definition.min_value ≤ e.2.current_value := by
  have h : FloorSafe rmEx := by
    intro e he
    simp [rmEx, moneyDefEx, ResourceManager.init] at he
    subst he
    norm_num [moneyDefEx]
  exact ⟨h, resource_floor_invariant rmEx [ROp.spend "money" 60, ROp.update 1] h⟩

/-! ### Claim C6 -/

/-- C6: the year comparison in `check_and_unlock_resources` is reversed.
The source skips a locked resource when `unlock_year < current_year`, so
the `"iron"` resource (unlock_year 5, no upgrade requirements) stays
locked forever once the year has passed 5 (here year 10, where the spec
demands an unlock and a `true` return), yet unlocks already at year 3,
before its gate (where the spec demands no transition). -/
theorem check_and_unlock_year_comparison_reversed :
    ((rmC6.get "iron").map ResourceState.is_unlocked = some false) ∧
    (rmC6.check_and_unlock_resources 10 []).1 = false ∧
    (((rmC6.check_and_unlock_resources 10 []).2.get "iron").map
      ResourceState.is_unlocked = some false) ∧
    (rmC6.check_and_unlock_resources 3 []).1 = true ∧
    (((rmC6.check_and_unlock_resources 3 []).2.get "iron").map
      ResourceState.is_unlocked = some true) := by
  refine ⟨?_, ?_, ?_, ?_, ?_⟩ <;>
    norm_num [rmC6, ironDefC6, ResourceManager.init, ResourceManager.get,
      ResourceManager.check_and_unlock_resources, ResourceManager.unlockStep,
      ResourceDefinition.is_dynamic, alookup]

/-! ### Claim C7 -/

/-- C7: `time_skip_to_year` fires **no** year-change listeners. The source
sets `time_system.current_year = target_year` *before* the callback loop
`for year in range(self.current_year + 1, target_year + 1)`, so the range
is always empty (its body even names a nonexistent listener attribute).
Here a skip from year 0 to 2 succeeds, advances `"money"` by
`10 * 2 * 2 = 40` as specified, but the listener call log is empty instead
of the two calls (year 1, year 2) the spec requires. -/
theorem time_skip_fires_no_listeners :
    (gsC7.time_skip_to_year 2).1 = true ∧
    (gsC7.time_skip_to_year 2).2.1.current_year = 2 ∧
    (gsC7.time_skip_to_year 2).2.1.resource_manager.get_value "money" = 140 ∧
    gsC7.time_system.listeners = [0] ∧
    (gsC7.time_skip_to_year 2).2.2 = [] ∧
    (gsC7.time_skip_to_year 2).2.2 ≠ [(0, 1), (0, 2)] := by
  refine ⟨?_, ?_, ?_, by decide, ?_, ?_⟩ <;>
    norm_num [gsC7, rmEx, moneyDefEx, GameState.time_skip_to_year,
      GameState.can_time_skip_to_year, GameState.current_year, GameState.intRange,
      ResourceManager.init, ResourceManager.get_value,
      ResourceState.get_production_per_second, alookup]
  decide

/-! ### Claim C4 -/

theorem pay_costs_snd_of_fail (rm : ResourceManager) (costs : List ResourceCost)
    (h : (rm.pay_costs costs).1 = false) : (rm.pay_costs costs).2 = rm := by
  unfold ResourceManager.pay_costs at h ⊢
  cases hca : rm.can_afford costs
  · rfl
  · rw [hca] at h
    simp at h

theorem purchase_upgrade_spec (gs : GameState) (uid : String) :
    ((gs.purchase_upgrade uid).1 = false → (gs.purchase_upgrade uid).2 = gs) ∧
    ((gs.purchase_upgrade uid).1 = true →
      ∃ u, alookup gs.all_upgrades uid = some u ∧
        gs.is_upgrade_available uid = true ∧
        (gs.resource_manager.pay_costs u.cost).1 = true ∧
        (gs.purchase_upgrade uid).2 =
          { gs with
            resource_manager :=
              (gs.resource_manager.pay_costs u.cost).2.recalculate_production
                (gs.owned_upgrades ++ [uid]) gs.all_upgrades
            owned_upgrades := gs.owned_upgrades ++ [uid]
            selected_exclusive := u.exclusive_group.foldl
              (fun m group => aset m group uid) gs.selected_exclusive }) := by
  cases hav : gs.is_upgrade_available uid with
  | false =>
    have heq : gs.purchase_upgrade uid = (false, gs) := by
      unfold GameState.purchase_upgrade
      rw [hav]
      rfl
    rw [heq]
    exact ⟨fun _ => rfl, fun ht => by simp at ht⟩
  | true =>
    cases hl : alookup gs.all_upgrades uid with
    | none =>
      have heq : gs.purchase_upgrade uid = (false, gs) := by
        unfold GameState.purchase_upgrade
        rw [hav, hl]
        rfl
      rw [heq]
      exact ⟨fun _ => rfl, fun ht => by simp at ht⟩
    | some u =>
      cases hp : (gs.resource_manager.pay_costs u.cost).1 with
      | false =>
        have heq : gs.purchase_upgrade uid =
            (false, { gs with resource_manager := (gs.resource_manager.pay_costs u.cost).2 }) := by
          unfold GameState.purchase_upgrade
          rw [hav, hl]
          dsimp only
          rw [hp]
          rfl
        rw [heq]
        refine ⟨fun _ => ?_, fun ht => by simp at ht⟩
        rw [pay_costs_snd_of_fail _ _ hp]
      | true =>
        have heq : gs.purchase_upgrade uid =
            (true, { gs with
              resource_manager :=
                (gs.resource_manager.pay_costs u.cost).2.recalculate_production
                  (gs.owned_upgrades ++ [uid]) gs.all_upgrades
              owned_upgrades := gs.owned_upgrades ++ [uid]
              selected_exclusive := u.exclusive_group.foldl
                (fun m group => aset m group uid) gs.selected_exclusive }) := by
          unfold GameState.purchase_upgrade
          rw [hav, hl]
          dsimp only
          rw [hp]
          rfl
        rw [heq]
        refine ⟨fun hf => by simp at hf, fun _ => ⟨u, ?_, ?_, hp, rfl⟩⟩ <;> rfl

/-- C4: `purchase_upgrade` is atomic. If it returns `false`, the state is
exactly the state before the call (no resource values, modifiers,
`owned_upgrades` or `selected_exclusive` change); if it returns `true`,
the looked-up upgrade was available, its costs were paid, and the
resulting state carries all mutations together: payment, the appended
owned id, the recorded selection for every exclusive group, and the
production recalculation. -/
theorem purchase_upgrade_atomic (gs : GameState) (uid : String) :
    ((gs.purchase_upgrade uid).1 = false → (gs.purchase_upgrade uid).2 = gs) ∧
    ((gs.purchase_upgrade uid).1 = true →
      ∃ u, alookup gs.all_upgrades uid = some u ∧
        gs.is_upgrade_available uid = true ∧
        (gs.resource_manager.pay_costs u.cost).1 = true ∧
        (gs.purchase_upgrade uid).2 =
          { gs with
            resource_manager :=
              (gs.resource_manager.pay_costs u.cost).2.recalculate_production
                (gs.owned_upgrades ++ [uid]) gs.all_upgrades
            owned_upgrades := gs.owned_upgrades ++ [uid]
            selected_exclusive := u.exclusive_group.foldl
              (fun m group => aset m group uid) gs.selected_exclusive }) :=
  purchase_upgrade_spec gs uid

/-- Witness for `purchase_upgrade_atomic`: purchasing the unknown id
`"Z"` fails and provably leaves the state untouched. -/
theorem purchase_upgrade_atomic_witness :
    (gsEx.purchase_upgrade "Z").1 = false ∧ (gsEx.purchase_upgrade "Z").2 = gsEx := by
  have h : (gsEx.purchase_upgrade "Z").1 = false := by decide
  exact ⟨h, (purchase_upgrade_atomic gsEx "Z").1 h⟩

/-! ### Claim C5: exclusive-group permanence -/

theorem is_available_true_parts (gs : GameState) (uid : String) (u : Upgrade)
    (hl : alookup gs.all_upgrades uid = some u)
    (hav : gs.is_upgrade_available uid = true) :
    uid ∉ gs.owned_upgrades ∧ gs.check_exclusive_group_available u = true := by
  unfold GameState.is_upgrade_available at hav
  by_cases hmem : uid ∈ gs.owned_upgrades
  · rw [if_pos hmem] at hav
    simp at hav
  · rw [if_neg hmem, hl] at hav
    rw [Bool.and_eq_true] at hav
    exact ⟨hmem, hav.2⟩

theorem exclusive_check_at_group (gs : GameState) (u : Upgrade) (G A : String)
    (hG : G ∈ u.exclusive_group)
    (hsel : alookup gs.selected_exclusive G = some A)
    (hex : gs.check_exclusive_group_available u = true) :
    A = u.id := by
  unfold GameState.check_exclusive_group_available at hex
  rw [List.all_eq_true] at hex
  have h := hex G hG
  rw [hsel] at h
  simpa using h

theorem time_skip_fields (gs : GameState) (t : Int) :
    (gs.time_skip_to_year t).2.1.all_upgrades = gs.all_upgrades ∧
    (gs.time_skip_to_year t).2.1.owned_upgrades = gs.owned_upgrades ∧
    (gs.time_skip_to_year t).2.1.selected_exclusive = gs.selected_exclusive := by
  unfold GameState.time_skip_to_year
  dsimp only
  split <;> exact ⟨rfl, rfl, rfl⟩

theorem groupLocked_stepG (cat : List (String × Upgrade)) (hwf : WFCatalog cat)
    (A G : String) (gs : GameState) (h : GroupLocked cat A G gs) (op : GOp) :
    GroupLocked cat A G (stepG gs op) := by
  obtain ⟨hcat, hA, hsel⟩ := h
  cases op with
  | gupdate dt s => exact ⟨hcat, hA, hsel⟩
  | tick dt => exact ⟨hcat, hA, hsel⟩
  | unlockCheck => exact ⟨hcat, hA, hsel⟩
  | skip t =>
    show GroupLocked cat A G (gs.time_skip_to_year t).2.1
    obtain ⟨h1, h2, h3⟩ := time_skip_fields gs t
    exact ⟨h1.trans hcat, h2 ▸ hA, by rw [h3]; exact hsel⟩
  | purchase uid =>
    show GroupLocked cat A G (gs.purchase_upgrade uid).2
    cases hres : (gs.purchase_upgrade uid).1 with
    | false =>
      rw [(purchase_upgrade_spec gs uid).1 hres]
      exact ⟨hcat, hA, hsel⟩
    | true =>
      obtain ⟨u, hl, hav, hp, heq⟩ := (purchase_upgrade_spec gs uid).2 hres
      rw [heq]
      refine ⟨hcat, List.mem_append_left _ hA, ?_⟩
      by_cases hGin : G ∈ u.exclusive_group
      · exfalso
        obtain ⟨hmem, hex⟩ := is_available_true_parts gs uid u hl hav
        have hAu : A = u.id := exclusive_check_at_group gs u G A hGin hsel hex
        have huid : u.id = uid := hwf (uid, u) (alookup_mem _ _ _ (hcat ▸ hl))
        have hconv : A = uid := hAu.trans huid
        exact hmem (hconv ▸ hA)
      · rw [alookup_foldl_aset_notmem _ _ _ _ hGin]
        exact hsel

theorem groupLocked_runG (cat : List (String × Upgrade)) (hwf : WFCatalog cat)
    (A G : String) (gs : GameState) (h : GroupLocked cat A G gs) (ops : List GOp) :
    GroupLocked cat A G (runG gs ops) := by
  induction ops generalizing gs with
  | nil => exact h
  | cons op t ih => exact ih _ (groupLocked_stepG cat hwf A G gs h op)

theorem groupLocked_blocks (cat : List (String × Upgrade)) (hwf : WFCatalog cat)
    (A G B : String) (uB : Upgrade) (gs : GameState)
    (h : GroupLocked cat A G gs)
    (hlB : alookup cat B = some uB) (hGB : G ∈ uB.exclusive_group) (hne : B ≠ A) :
    gs.is_upgrade_available B = false := by
  obtain ⟨hcat, hA, hsel⟩ := h
  rw [Bool.eq_false_iff]
  intro hav
  obtain ⟨-, hex⟩ := is_available_true_parts gs B uB (by rw [hcat]; exact hlB) hav
  have hAB : A = uB.id := exclusive_check_at_group gs uB G A hGB hsel hex
  have hB : uB.id = B := hwf (B, uB) (alookup_mem _ _ _ hlB)
  exact hne (hB ▸ hAB.symm)

/-- C5: once `purchase_upgrade A` succeeds for an upgrade `A` in exclusive
group `G` (catalog keys matching upgrade ids, as the loader builds them),
every other upgrade `B ≠ A` of group `G` has `is_upgrade_available B =
false` in every state reachable by any further sequence of session
commands (purchases, resource updates, time ticks, time skips, unlock
checks): the recorded selection `selected_exclusive[G] = A` is never
overwritten, because any competing purchase in `G` is itself blocked. -/
theorem exclusive_group_blocked_forever (cat : List (String × Upgrade))
    (hwf : WFCatalog cat) (gs : GameState) (hcat : gs.all_upgrades = cat)
    (A B G : String) (uA uB : Upgrade)
    (hlA : alookup cat A = some uA) (hGA : G ∈ uA.exclusive_group)
    (hlB : alookup cat B = some uB) (hGB : G ∈ uB.exclusive_group)
    (hne : B ≠ A)
    (hsucc : (gs.purchase_upgrade A).1 = true) :
    ∀ ops : List GOp,
      (runG (gs.purchase_upgrade A).2 ops).is_upgrade_available B = false := by
  obtain ⟨u, hl, hav, hp, heq⟩ := (purchase_upgrade_spec gs A).2 hsucc
  have hu : u = uA := by
    rw [hcat] at hl
    rw [hl] at hlA
    injection hlA
  have hlock : GroupLocked cat A G (gs.purchase_upgrade A).2 := by
    rw [heq]
    refine ⟨hcat, List.mem_append_right _ (by simp), ?_⟩
    subst hu
    exact alookup_foldl_aset_mem _ _ _ _ hGA
  intro ops
  exact groupLocked_blocks cat hwf A G B uB _
    (groupLocked_runG cat hwf A G _ hlock ops) hlB hGB hne

/-- Witness for `exclusive_group_blocked_forever`: in the concrete catalog
`catEx`, buying `"A"` (group `"g"`) and then updating resources leaves
`"B"` unavailable. -/
theorem exclusive_group_blocked_forever_witness :
    WFCatalog catEx ∧
    gsEx.all_upgrades = catEx ∧
    alookup catEx "A" = some upgA ∧ "g" ∈ upgA.exclusive_group ∧
    alookup catEx "B" = some upgB ∧ "g" ∈ upgB.exclusive_group ∧
    ("B" : String) ≠ "A" ∧
    (gsEx.purchase_upgrade "A").1 = true ∧
    (runG (gsEx.purchase_upgrade "A").2 [GOp.gupdate 1 1]).is_upgrade_available "B"
      = false := by
  have hwf : WFCatalog catEx := by
    intro e he
    fin_cases he <;> rfl
  have hsucc : (gsEx.purchase_upgrade "A").1 = true := by
    norm_num [gsEx, rmEx, moneyDefEx, catEx, upgA, upgB, upgC, upgD,
      GameState.purchase_upgrade, GameState.is_upgrade_available,
      GameState.check_requirements_met, GameState.check_exclusive_group_available,
      GameState.current_year, GameState.reqSatisfied,
      ResourceManager.init, ResourceManager.pay_costs, ResourceManager.can_afford,
      alookup]
  refine ⟨hwf, rfl, rfl, by decide, rfl, by decide, by decide, hsucc, ?_⟩
  exact exclusive_group_blocked_forever catEx hwf gsEx rfl "A" "B" "g" upgA upgB
    rfl (by decide) rfl (by decide) (by decide) hsucc [GOp.gupdate 1 1]

/-! ### Claim C9 -/

/-- C9: with `requires = [["a","b"]]` and the year gate already satisfied,
`check_requirements_met` holds exactly when `"a"` or `"b"` alone is owned
(OR semantics inside a list entry; owning both is not required). -/
theorem check_requirements_or_semantics (gs : GameState) (u : Upgrade) (a b : String)
    (hr : u.requires = [Requirement.anyOf [a, b]])
    (hy : u.year ≤ gs.current_year) :
    (gs.check_requirements_met u = true ↔
      a ∈ gs.owned_upgrades ∨ b ∈ gs.owned_upgrades) := by
  unfold GameState.check_requirements_met
  rw [hr]
  simp [GameState.reqSatisfied, not_lt.mpr hy]

/-- Witness for `check_requirements_or_semantics`: `upgD` requires
`[["a","b"]]`, the session owns only `"a"`, and the requirement check
passes. -/
theorem check_requirements_or_semantics_witness :
    upgD.requires = [Requirement.anyOf ["a", "b"]] ∧
    upgD.year ≤ gsC9.current_year ∧
    gsC9.check_requirements_met upgD = true := by
  have hr : upgD.requires = [Requirement.anyOf ["a", "b"]] := rfl
  have hy : upgD.year ≤ gsC9.current_year := by decide
  refine ⟨hr, hy, ?_⟩
  exact (check_requirements_or_semantics gsC9 upgD "a" "b" hr hy).mpr
    (Or.inl (by decide))

/-! ### Claim C10 -/

theorem alookup_init (defs : List (String × ResourceDefinition)) (k : String) :
    alookup (ResourceManager.init defs).resources k =
      (alookup defs k).map (fun d =>
        { definition := d, current_value := d.base_production * 10,
          is_unlocked := !d.is_dynamic }) := by
  unfold ResourceManager.init
  dsimp only
  induction defs with
  | nil => rfl
  | cons e t ih =>
    obtain ⟨k', v⟩ := e
    by_cases h : k' = k
    · simp [alookup, h]
    · simp [alookup, h, ih]

/-- C10: `ResourceManager.__init__` gives every resource
`current_value = base_production * 10` and `is_unlocked = not is_dynamic`;
consequently a definition with `min_value > base_production * 10` starts
strictly below its own floor. -/
theorem init_resource_state (defs : List (String × ResourceDefinition))
    (k : String) (d : ResourceDefinition) (h : alookup defs k = some d) :
    (ResourceManager.init defs).get k =
      some { definition := d, current_value := d.base_production * 10,
             is_unlocked := !d.is_dynamic } ∧
    (d.base_production * 10 < d.min_value →
      (ResourceManager.init defs).get_value k < d.min_value) := by
  have hg : (ResourceManager.init defs).get k =
      some { definition := d, current_value := d.base_production * 10,
             is_unlocked := !d.is_dynamic } := by
    unfold ResourceManager.get
    rw [alookup_init, h]
    rfl
  refine ⟨hg, ?_⟩
  intro hlt
  unfold ResourceManager.get_value
  unfold ResourceManager.get at hg
  rw [hg]
  exact hlt

/-- Witness for `init_resource_state`: the `"rare"` resource (floor 20,
base production 1) starts at 10, strictly below its floor, and unlocked
since it is not dynamic. -/
theorem init_resource_state_witness :
    alookup [("rare", rareDefC10)] "rare" = some rareDefC10 ∧
    rareDefC10.base_production * 10 < rareDefC10.min_value ∧
    (ResourceManager.init [("rare", rareDefC10)]).get "rare" =
      some { definition := rareDefC10
             current_value := rareDefC10.base_production * 10
             is_unlocked := !rareDefC10.is_dynamic } ∧
    (ResourceManager.init [("rare", rareDefC10)]).get_value "rare" <
      rareDefC10.min_value := by
  have h : alookup [("rare", rareDefC10)] "rare" = some rareDefC10 := by
    simp [alookup]
  have hlt : rareDefC10.base_production * 10 < rareDefC10.min_value := by
    norm_num [rareDefC10]
  obtain ⟨h1, h2⟩ := init_resource_state [("rare", rareDefC10)] "rare" rareDefC10 h
  exact ⟨h, hlt, h1, h2 hlt⟩

end IdleGame

